import Mathlib

/-!
# Verification of the `git-main` branch lifecycle tool

Shallow embedding of the decision logic of the `git-main` CLI
(`src/git-main.mjs` and the revisions shipped alongside it, notably the
revision containing `canSafelyDeleteBranch` and `cleanupStaleBranches`).

External effects (the `zx` command runner, the file system, the interactive
prompt) are modelled as explicit inputs: every git query result is a
parameter, fallible queries are `Except` values, and mutating commands are
recorded in an explicit list of `Mut` actions.  All definitions are
executable so that concrete runs can be evaluated by `decide`/`rfl`.
-/

namespace GitMain

/-! ## JavaScript string primitives

The tool manipulates raw `stdout` strings with JS `String` methods
(`trim`, `includes`, `startsWith`, `split`) and `RegExp`.  We embed the
JS semantics of the fragments actually used. -/

/-- The JS `\s` character class (WhiteSpace ∪ LineTerminator):
space, tab, LF, VT, FF, CR, NBSP, and the Unicode space separators,
as used both by `RegExp` `\s` and by `String.prototype.trim`. -/
def isJsSpace (c : Char) : Bool :=
  let n := c.toNat
  n == 0x20 || n == 0x09 || n == 0x0a || n == 0x0b || n == 0x0c || n == 0x0d ||
  n == 0xa0 || n == 0x1680 || (0x2000 ≤ n && n ≤ 0x200a) ||
  n == 0x2028 || n == 0x2029 || n == 0x202f || n == 0x205f || n == 0x3000 || n == 0xfeff

/-- The JS regexp `.` without the `s` flag: any char except a LineTerminator. -/
def isJsDot (c : Char) : Bool :=
  let n := c.toNat
  !(n == 0x0a || n == 0x0d || n == 0x2028 || n == 0x2029)

/-- JS LineTerminator (LF, CR, LS, PS): the positions after which a
multiline `^` anchor may match. -/
def isLineTerm (c : Char) : Bool :=
  let n := c.toNat
  n == 0x0a || n == 0x0d || n == 0x2028 || n == 0x2029

/-- Does `needle` occur at the head of `hay`? (list prefix test). -/
def takesLead (needle hay : List Char) : Bool :=
  match needle, hay with
  | [], _ => true
  | _ :: _, [] => false
  | n :: ns, h :: hs => n == h && takesLead ns hs

/-- Does `needle` occur anywhere inside `hay`? -/
def hasSub (needle hay : List Char) : Bool :=
  match hay with
  | [] => takesLead needle []
  | _ :: hs => takesLead needle hay || hasSub needle hs

/-- JS `s.includes(sub)`: substring containment. -/
def jsIncludes (s sub : String) : Bool :=
  hasSub sub.toList s.toList

/-- JS `String.prototype.trim`: strip leading and trailing whitespace. -/
def jsTrim (s : String) : String :=
  ⟨(((s.toList.dropWhile isJsSpace).reverse.dropWhile isJsSpace).reverse)⟩

/-- JS `s.startsWith(pre)`. -/
def jsStartsWith (s pre : String) : Bool :=
  takesLead pre.toList s.toList

/-- Split a character list at every occurrence of `sep` (JS
`String.prototype.split` with a single-character separator: empty
fields are kept). -/
def splitChar (sep : Char) : List Char → List (List Char)
  | [] => [[]]
  | c :: cs =>
    if c = sep then [] :: splitChar sep cs
    else
      match splitChar sep cs with
      | [] => [[c]]
      | g :: gs => (c :: g) :: gs

/-- JS `s.split("\n")`. -/
def jsSplitNl (s : String) : List String :=
  (splitChar '\n' s.toList).map fun g => ⟨g⟩

/-! ## A small JS `RegExp` engine

The tool builds two regular expressions:

* `buildGoneRegexPattern` (stale-branch revision, lines 142-151):
  `'^\\s*(\\*\\s+)?' ++ B ++ '.*?\\s*\\[' ++ R ++ '/' ++ B ++ ':\\s*gone\\]' ++ '.*'`
  where `B`/`R` are `escapeRegExp`-escaped branch/remote names (hence plain
  literals), tested with the `m` flag against the full `git branch -vv` output;
* the per-line pattern of `findBranchesWithDeletedRemotes`
  (`^\s*(\*?\s*)([^\s]+)\s+[a-f0-9]+(?:\s+\[([^\]]+)\])?\s*(.*)`),
  matched without flags against a single line, with capture groups 2
  (branch name) and 3 (tracking annotation).

Both use only: literals, single character classes, greedy/lazy starred
character classes, optional groups, and capture markers.  `reMatch` is a
backtracking matcher exploring alternatives in the JS priority order
(greedy prefers consuming, lazy prefers stopping, `(...)?` prefers
entering), so the first success yields exactly the JS match and captures. -/

inductive RE where
  /-- a literal run of characters -/
  | lit (s : List Char)
  /-- a single character satisfying the class `p` -/
  | cls (p : Char → Bool)
  /-- Quantified class `p*` (greedy when `lazy = false`, lazy `*?` otherwise) -/
  | star (p : Char → Bool) (lazy : Bool)
  /-- Optional group `( ... )?`: greedy optional sub-sequence -/
  | optSeq (inner : List RE)
  /-- capture-group open marker -/
  | openG (i : Nat)
  /-- capture-group close marker -/
  | closeG (i : Nat)

mutual

/-- Size of a single pattern element (for termination). -/
def reSize : RE → Nat
  | .lit _ => 1
  | .cls _ => 1
  | .star _ _ => 1
  | .openG _ => 1
  | .closeG _ => 1
  | .optSeq l => 1 + reListSize l

/-- Size of a pattern (for termination). -/
def reListSize : List RE → Nat
  | [] => 0
  | r :: rs => reSize r + reListSize rs

end

/-- Backtracking matcher.  `opens` holds, per open capture group, the
input remaining when the group opened; `caps` holds closed captures.
Returns the captures of the first (JS-priority) match of the whole
pattern list at the current position, the remainder unconstrained
(`test`/`match` semantics: no end anchor).

Structural recursion on `fuel`: every recursive call strictly decreases
`cs.length + reListSize rs`, so any `fuel` larger than that bound gives
the untruncated backtracking search (see `reMatch`). -/
def reMatchF (fuel : Nat) (rs : List RE) (cs : List Char)
    (opens caps : List (Nat × List Char)) : Option (List (Nat × List Char)) :=
  match fuel with
  | 0 => none
  | fuel + 1 =>
  match rs with
  | [] => some caps
  | .lit s :: rs' =>
    if takesLead s cs then reMatchF fuel rs' (cs.drop s.length) opens caps else none
  | .cls p :: rs' =>
    match cs with
    | c :: cs' => if p c then reMatchF fuel rs' cs' opens caps else none
    | [] => none
  | .star p lz :: rs' =>
    if lz then
      match reMatchF fuel rs' cs opens caps with
      | some r => some r
      | none =>
        match cs with
        | c :: cs' =>
          if p c then reMatchF fuel (.star p lz :: rs') cs' opens caps else none
        | [] => none
    else
      match
        (match cs with
         | c :: cs' =>
           if p c then reMatchF fuel (.star p lz :: rs') cs' opens caps else none
         | [] => none) with
      | some r => some r
      | none => reMatchF fuel rs' cs opens caps
  | .optSeq inner :: rs' =>
    match reMatchF fuel (inner ++ rs') cs opens caps with
    | some r => some r
    | none => reMatchF fuel rs' cs opens caps
  | .openG i :: rs' => reMatchF fuel rs' cs ((i, cs) :: opens) caps
  | .closeG i :: rs' =>
    match opens.find? (fun x => x.1 == i) with
    | some (_, start) =>
      reMatchF fuel rs' cs opens ((i, start.take (start.length - cs.length)) :: caps)
    | none => none

/-- The matcher with enough fuel for the untruncated search. -/
def reMatch (rs : List RE) (cs : List Char)
    (opens caps : List (Nat × List Char)) : Option (List (Nat × List Char)) :=
  reMatchF (cs.length + reListSize rs + 1) rs cs opens caps

/-- Drop input up to and including the next line terminator (the next
position where a multiline `^` anchor may match), if any. -/
def dropToNextLine : List Char → Option (List Char)
  | [] => none
  | c :: cs => if isLineTerm c then some cs else dropToNextLine cs

/-- JS `regex.test(s)` for a pattern starting with a multiline `^` anchor:
try a match at the start of the string and after every line terminator.
Structural recursion on `fuel`; `dropToNextLine` strictly shrinks the
input, so `cs.length + 1` anchors suffice (see `reTestML`). -/
def reTestMLF (fuel : Nat) (rs : List RE) (cs : List Char) : Bool :=
  match fuel with
  | 0 => false
  | fuel + 1 =>
    (reMatch rs cs [] []).isSome ||
      match dropToNextLine cs with
      | some cs' => reTestMLF fuel rs cs'
      | none => false

/-- The multiline test with enough fuel to try every anchor position. -/
def reTestML (rs : List RE) (cs : List Char) : Bool :=
  reTestMLF (cs.length + 1) rs cs

/-- lowercase hex digit, the `[a-f0-9]` class. -/
def isHexLower (c : Char) : Bool :=
  ('a' ≤ c && c ≤ 'f') || ('0' ≤ c && c ≤ '9')

/-- The pattern built by `buildGoneRegexPattern branch remote`
(stale-branch revision, lines 142-151):
`^\s*(\*\s+)?B.*?\s*\[R/B:\s*gone\].*` where `B` and `R` are the
`escapeRegExp`-escaped (hence literal) branch and remote names.
The capture group `(\*\s+)` is modelled as a plain optional sequence
since `cleanupStaleBranches` only calls `.test`. -/
def gonePattern (branch remote : List Char) : List RE :=
  [ .star isJsSpace false,
    .optSeq [ .lit ['*'], .cls isJsSpace, .star isJsSpace false ],
    .lit branch,
    .star isJsDot true,
    .star isJsSpace false,
    .lit ('[' :: remote ++ '/' :: branch ++ [':']),
    .star isJsSpace false,
    .lit "gone]".toList,
    .star isJsDot false ]

/-- JS `new RegExp(buildGoneRegexPattern(branch, remote), "m").test(output)`. -/
def goneRegexTest (branch remote output : String) : Bool :=
  reTestML (gonePattern branch.toList remote.toList) output.toList

/-- The per-line pattern of `findBranchesWithDeletedRemotes`:
`^\s*(\*?\s*)([^\s]+)\s+[a-f0-9]+(?:\s+\[([^\]]+)\])?\s*(.*)`,
with capture groups 2 (branch name) and 3 (tracking annotation). -/
def vvLinePattern : List RE :=
  [ .star isJsSpace false,
    .openG 1, .optSeq [ .lit ['*'] ], .star isJsSpace false, .closeG 1,
    .openG 2, .cls (fun c => !isJsSpace c), .star (fun c => !isJsSpace c) false, .closeG 2,
    .cls isJsSpace, .star isJsSpace false,
    .cls isHexLower, .star isHexLower false,
    .optSeq [ .cls isJsSpace, .star isJsSpace false, .lit ['['],
              .openG 3, .cls (fun c => c != ']'), .star (fun c => c != ']') false, .closeG 3,
              .lit [']'] ],
    .star isJsSpace false,
    .openG 4, .star isJsDot false, .closeG 4 ]

/-- JS `line.match(vvLinePattern)`: `none` when the line does not match,
otherwise `(match[2], match[3] || "")` — the branch name and its
tracking annotation (empty when the group did not participate). -/
def vvParseLine (line : String) : Option (String × String) :=
  match reMatch vvLinePattern line.toList [] [] with
  | none => none
  | some caps =>
    let name : String :=
      match caps.find? (fun x => x.1 == 2) with
      | some (_, s) => ⟨s⟩
      | none => ""
    let tracking : String :=
      match caps.find? (fun x => x.1 == 3) with
      | some (_, s) => ⟨s⟩
      | none => ""
    some (name, tracking)

/-! ## JS `Date` arithmetic for the staleness threshold

`cleanupStaleBranches` computes
`oneMonthAgoDate = new Date(Date.UTC(y, m, d)); oneMonthAgoDate.setUTCMonth(m - 1)`
from the current UTC year/month(0-based)/day, i.e. the epoch milliseconds of
the calendar date one month earlier, with ECMAScript month/day normalisation
(month −1 rolls the year; an out-of-range day rolls into the next month). -/

/-- Days from the civil epoch 1970-01-01 to year `y`, month `m` (1-12),
day 1, plus an arbitrary (possibly out of range) day offset is handled by
the caller.  Standard civil-from-days algorithm over `Int`. -/
def daysFromCivil (y m d : Int) : Int :=
  let y' := if m ≤ 2 then y - 1 else y
  let era := Int.fdiv y' 400
  let yoe := y' - era * 400
  let mp := if m > 2 then m - 3 else m + 9
  let doy := Int.fdiv (153 * mp + 2) 5 + d - 1
  let doe := yoe * 365 + Int.fdiv yoe 4 - Int.fdiv yoe 100 + doy
  era * 146097 + doe - 719468

/-- Epoch milliseconds of `Date.UTC(y, m0, d)` followed by
`setUTCMonth(m0 - 1)`: the UTC midnight one calendar month before the
civil date `(y, m0 + 1, d)` (with `m0` the 0-based JS month), after
ECMAScript normalisation of the month and day. -/
def jsOneMonthAgoMs (y m0 d : Int) : Int :=
  let m' := m0 - 1
  let ym := y + Int.fdiv m' 12
  let mn := Int.emod m' 12
  (daysFromCivil ym (mn + 1) 1 + (d - 1)) * 86400000

/-- The remote name `(await $\`git remote show -n\`).stdout.trim() || "origin"`. -/
def rawRemoteName (remoteShowOut : String) : String :=
  if jsTrim remoteShowOut = "" then "origin" else jsTrim remoteShowOut

/-- The staleness classification loop of `cleanupStaleBranches`
(stale-branch revision, lines 164-196): given the local branch names, the
raw `git branch -vv` output, the raw `git remote show -n` output, the
last-commit unix timestamp (seconds) of each branch, and the current UTC
date `(nowY, nowM0, nowD)` (`nowM0` 0-based), collect the branches that
are neither `main` nor `master`, whose last commit is strictly older than
the one-month-ago threshold, and whose gone-regex matches the verbose
listing. -/
def cleanupStaleClassify (localBranches : List String)
    (branchVerboseOutput remoteShowOut : String)
    (lastCommitTs : String → Int) (nowY nowM0 nowD : Int) : List String :=
  let oneMonthAgoTimestamp := jsOneMonthAgoMs nowY nowM0 nowD
  let remote := rawRemoteName remoteShowOut
  localBranches.filter fun branch =>
    !(branch == "main" || branch == "master") &&
    decide (lastCommitTs branch * 1000 < oneMonthAgoTimestamp) &&
    goneRegexTest branch remote branchVerboseOutput

/-- Down-selection and display ordering of `cleanupStaleBranches`
(lines 203-209): when more than 5 stale branches were found, take the
first 5 of a random shuffle (`sort(() => 0.5 - Math.random())`, modelled
as an externally given reordering `shuffled` of the list), then sort the
resulting list by name (`Array.prototype.sort`, lexicographic). -/
def selectStaleForDeletion (staleBranches shuffled : List String) : List String :=
  let branchesToDelete :=
    if staleBranches.length > 5 then shuffled.take 5 else staleBranches
  branchesToDelete.mergeSort (fun a b => a ≤ b)

/-! ## `findBranchesWithDeletedRemotes`

Embedding of `findBranchesWithDeletedRemotes(mainBranch, defaultRemote)`
(`src/git-main.mjs`, current revision, lines 563-610).  The three git
invocations inside the `try` (`git remote prune`, `git branch -vv`,
`git rev-parse --abbrev-ref HEAD`) are modelled as `Except`-valued query
results; if any of them rejects, the surrounding `catch` logs the error
and returns the empty list. -/

/-- Did a modelled query fail (did its promise reject)? -/
def isErr {ε α : Type} : Except ε α → Bool
  | .error _ => true
  | .ok _ => false

/-- Results of the three queries issued inside
`findBranchesWithDeletedRemotes`. -/
structure FindEnv where
  pruneRes : Except String Unit
  branchVVRes : Except String String
  headRes : Except String String

/-- The per-line loop (lines 576-602): parse each line with
`vvLinePattern`; skip unparsable lines, the current branch, the main
branch and the literal names `master`/`main`; keep branches whose
tracking annotation is nonempty and contains `": gone"`. -/
def findLoop (currentBranch mainBranch : String) : List String → List String
  | [] => []
  | line :: rest =>
    match vvParseLine line with
    | none => findLoop currentBranch mainBranch rest
    | some (branchName, trackingInfo) =>
      if branchName = "" ∨ branchName = currentBranch ∨ branchName = mainBranch ∨
          branchName = "master" ∨ branchName = "main" then
        findLoop currentBranch mainBranch rest
      else if trackingInfo ≠ "" ∧ jsIncludes trackingInfo ": gone" = true then
        branchName :: findLoop currentBranch mainBranch rest
      else
        findLoop currentBranch mainBranch rest

/-- The body of `findBranchesWithDeletedRemotes(mainBranch, defaultRemote)`:
on success of all three queries, split the verbose listing into nonempty
lines and run the loop with the trimmed current branch; on any query
failure, log and return `[]`. -/
def findBranchesWithDeletedRemotes (mainBranch : String) (env : FindEnv) :
    List String :=
  match env.pruneRes, env.branchVVRes, env.headRes with
  | .ok _, .ok branchOutput, .ok headOut =>
    let branches := (jsSplitNl branchOutput).filter (fun l => l ≠ "")
    findLoop (jsTrim headOut) mainBranch branches
  | _, _, _ => []

/-! ## `canSafelyDeleteBranch`

Embedding of `canSafelyDeleteBranch(branchName, mainBranch)` (stale-branch
revision lines 114-129 = merged-cleanup revision lines 472-505; the two
revisions are identical up to comments).  The three git queries — the
`git branch --merged` listing and the two `rev-parse ^{tree}` hashes —
are `Except`-valued inputs; the `catch` turns any failure into
`{safe: false}` with an `Error checking branch:` reason.  Note that the
merged check is JS `String.includes` on the raw stdout, i.e. substring
containment, not membership in the listed branch set. -/

structure SafetyResult where
  safe : Bool
  reason : String
deriving DecidableEq

def canSafelyDeleteBranch (branchName mainBranch : String)
    (mergedQ branchTreeQ mainTreeQ : Except String String) : SafetyResult :=
  match mergedQ with
  | .error e => { safe := false, reason := "Error checking branch: " ++ e }
  | .ok mergedBranches =>
    if jsIncludes mergedBranches branchName then
      { safe := true, reason := "Branch is fully merged" }
    else
      match branchTreeQ with
      | .error e => { safe := false, reason := "Error checking branch: " ++ e }
      | .ok branchTreeOut =>
        match mainTreeQ with
        | .error e => { safe := false, reason := "Error checking branch: " ++ e }
        | .ok mainTreeOut =>
          if jsTrim branchTreeOut = jsTrim mainTreeOut then
            { safe := true, reason := "Branch content matches current main" }
          else
            { safe := false, reason := "Branch may contain unique commits" }

/-! ## Package-manager detection and lockfile snapshots

Embedding of `detectPackageManager`, `getLockfile`, `readFileIfExists`
and `getLockfileContent` (`src/git-main.mjs` lines 394-462).  The
repository root's three possible lockfiles are modelled as optional file
contents. -/

inductive PM where
  | yarn
  | pnpm
  | npm
deriving DecidableEq

/-- Lockfiles present at the git root: `yarn.lock`, `pnpm-lock.yaml`,
`package-lock.json`, each `none` when absent. -/
structure LockFS where
  yarnLock : Option String
  pnpmLock : Option String
  npmLock : Option String
deriving DecidableEq

/-- Embedding of `detectPackageManager(gitRoot)`: first lockfile present in the fixed
priority order yarn → pnpm → npm. -/
def detectPackageManager (fs : LockFS) : Option PM :=
  if fs.yarnLock.isSome then some .yarn
  else if fs.pnpmLock.isSome then some .pnpm
  else if fs.npmLock.isSome then some .npm
  else none

/-- Embedding of `getLockfile(gitRoot)`: the detected package manager's lockfile name. -/
def getLockfile (fs : LockFS) : Option String :=
  match detectPackageManager fs with
  | none => none
  | some .yarn => some "yarn.lock"
  | some .pnpm => some "pnpm-lock.yaml"
  | some .npm => some "package-lock.json"

/-- Embedding of `readFileIfExists`: the file's content, or `""` when reading fails. -/
def readFileIfExists (file : Option String) : String :=
  file.getD ""

/-- Read the named lockfile from the modelled git root. -/
def readLock (fs : LockFS) (name : String) : Option String :=
  if name = "yarn.lock" then fs.yarnLock
  else if name = "pnpm-lock.yaml" then fs.pnpmLock
  else if name = "package-lock.json" then fs.npmLock
  else none

/-- Embedding of `getLockfileContent(gitRoot)`: `""` when no package manager is
detected, otherwise the (possibly missing → `""`) lockfile content. -/
def getLockfileContent (fs : LockFS) : String :=
  match getLockfile fs with
  | none => ""
  | some name => readFileIfExists (readLock fs name)

/-! ## The orchestrator `main`

Embedding of `main()` (`src/git-main.mjs`, current revision, lines
612-784).  Every external observation is a field of `MainEnv`; every
mutating command the run would execute is recorded, in program order, in
a `List Mut`.  The function returns the process exit code together with
that list (`process.exit(1)` on fatal paths, the `.then` handler's
`process.exit(0)` on completion; an error escaping `main` is caught by
the top-level handler and also exits 1). -/

/-- A mutating command executed by the run. -/
inductive Mut where
  /-- command `git checkout -b b remote/b` -/
  | checkoutTrack (b remote : String)
  /-- command `git checkout b` -/
  | checkout (b : String)
  /-- command `git checkout -b b` -/
  | checkoutNew (b : String)
  /-- command `git add --all` -/
  | addAll
  /-- command `git reset --hard HEAD` -/
  | resetHard
  /-- command `git merge --ff-only remote/b` -/
  | mergeFF (remote b : String)
  /-- command `git pull` -/
  | pull
  /-- command `git branch -D b` -/
  | deleteBranch (b : String)
  /-- the package manager's frozen install -/
  | installDeps (pm : PM)
deriving DecidableEq

/-- The external world observed by a run of `main()`. -/
structure MainEnv where
  /-- the argument list `process.argv.slice(2)` -/
  args : List String
  /-- stdout of `git remote show -n` -/
  remoteShowOut : String
  /-- whether `git fetch` rejects (both the `not a git repository` and the
  rethrow path exit 1 before any mutation) -/
  fetchFails : Bool
  /-- whether `git rev-parse --quiet --verify main` succeeds -/
  mainExistsLocally : Bool
  /-- whether `git rev-parse --quiet --verify <b>` succeeds -/
  localBranchExists : String → Bool
  /-- whether `git ls-remote --exit-code <remote> <b>` succeeds -/
  remoteBranchExists : String → Bool
  /-- answer to `Branch '<b>' does not exist ... Create it?` -/
  confirmCreate : Bool
  /-- stdout of `git rev-parse --abbrev-ref HEAD` -/
  headOut : String
  /-- stdout of `git status --porcelain` -/
  statusOut : String
  /-- answer to `Revert all changes?` -/
  confirmRevert : Bool
  /-- whether `git merge --ff-only` succeeds -/
  ffOnlySucceeds : Bool
  /-- the fallback `git pull` rejects -/
  pullFails : Bool
  /-- the pull rejection message contains `There is no tracking information` -/
  pullNoTracking : Bool
  /-- lockfiles at the git root before the switch/pull -/
  fsBefore : LockFS
  /-- lockfiles at the git root after the switch/pull -/
  fsAfter : LockFS
  /-- query results inside `findBranchesWithDeletedRemotes` -/
  findEnv : FindEnv

/-- The argument-validation condition (lines 614-618):
`args.length > 1 || args?.[0]?.startsWith("-")`. -/
def usageError (args : List String) : Bool :=
  if 1 < args.length then true
  else
    match args.head? with
    | some a => jsStartsWith a "-"
    | none => false

/-- Explicit-branch resolution (lines 633-672): auto-detected
`main`/`master` unless a (truthy) explicit branch argument exists locally
or remotely, or the user confirms creating it.  Returns the effective
`mainBranch`, the `createNewBranch` flag and the `isRemoteBranch` flag,
or exit code 1 when the user declines creation. -/
def resolveBranch (env : MainEnv) (explicitBranch : Option String)
    (detected : String) : Except Nat (String × Option String × Bool) :=
  match explicitBranch with
  | none => .ok (detected, none, false)
  | some b =>
    if b = "" then .ok (detected, none, false)
    else if env.localBranchExists b then .ok (b, none, false)
    else if env.remoteBranchExists b then .ok (b, none, true)
    else if env.confirmCreate then .ok (detected, some b, false)
    else .error 1

/-- The dirty-tree gate (lines 678-710): with a dirty status, a pending
new branch carries the dirty state along; on the main branch the user is
asked to revert (`y` → `git add --all; git reset --hard HEAD`, `n` →
exit 1); on any other branch the run aborts with `Branch is not clean`. -/
def dirtyStep (env : MainEnv) (status currentBranch mainBranch : String)
    (createNewBranch : Option String) : Except Nat (List Mut) :=
  if status = "" then .ok []
  else if createNewBranch.isSome then .ok []
  else if currentBranch = mainBranch then
    if env.confirmRevert then .ok [Mut.addAll, Mut.resetHard] else .error 1
  else .error 1

/-- The branch-switch commands of lines 714-729: nothing when already on
the target; a tracking checkout for a remote-only branch; a plain
checkout unless a new branch is about to be created (in which case the
tool stays put and branches off later). -/
def switchMutsOf (currentBranch mainBranch : String)
    (createNewBranch : Option String) (isRemoteBranch : Bool)
    (defaultRemote : String) : List Mut :=
  if currentBranch = mainBranch then []
  else if isRemoteBranch then [Mut.checkoutTrack mainBranch defaultRemote]
  else if createNewBranch.isNone then [Mut.checkout mainBranch]
  else []

/-- Branch switch and pull (lines 712-734), including `quickPull`
(lines 533-555): skipped entirely when creating a new branch from a
dirty tree; otherwise switch, then fast-forward merge with fallback to
`git pull`, swallowing only `no tracking information` pull failures. -/
def switchPull (env : MainEnv) (status currentBranch mainBranch : String)
    (createNewBranch : Option String) (isRemoteBranch : Bool)
    (defaultRemote : String) : Except Nat (List Mut) :=
  if createNewBranch.isSome ∧ status ≠ "" then .ok []
  else
    let switchMuts := switchMutsOf currentBranch mainBranch createNewBranch
      isRemoteBranch defaultRemote
    if env.ffOnlySucceeds then .ok (switchMuts ++ [Mut.mergeFF defaultRemote mainBranch])
    else if env.pullFails then
      if env.pullNoTracking then .ok switchMuts else .error 1
    else .ok (switchMuts ++ [Mut.pull])

/-- Branch creation after the pull (lines 743-747). -/
def createMutsOf (createNewBranch : Option String) : List Mut :=
  match createNewBranch with
  | some b => [Mut.checkoutNew b]
  | none => []

/-- Remote-gone cleanup (lines 749-772): only on a main/master target;
every listed branch is force-deleted. -/
def deleteMutsOf (mainBranch : String) (findEnv : FindEnv) : List Mut :=
  if mainBranch = "master" ∨ mainBranch = "main" then
    (findBranchesWithDeletedRemotes mainBranch findEnv).map Mut.deleteBranch
  else []

/-- Dependency sync (lines 736-741 and 774-781): the package manager is
detected before the pull (`fsBefore`); `hasLockfileChanges` compares the
lockfile content read before the switch/pull with the one read after, by
plain string inequality, and gates the frozen install. -/
def installMutsOf (fsBefore fsAfter : LockFS) : List Mut :=
  let packageManager := detectPackageManager fsBefore
  let hasLockfileChanges :=
    packageManager.isSome &&
      decide (getLockfileContent fsBefore ≠ getLockfileContent fsAfter)
  match packageManager with
  | some pm => if hasLockfileChanges then [Mut.installDeps pm] else []
  | none => []

/-- Embedding of `main()` (current revision, lines 612-784) together with the
top-level `.then` handler: exit code and the ordered mutating commands. -/
def mainRun (env : MainEnv) : Nat × List Mut :=
  if usageError env.args then (1, [])
  else if jsTrim env.remoteShowOut = "" then (1, [])
  else if env.fetchFails then (1, [])
  else
    match resolveBranch env (if env.args.length = 1 then env.args.head? else none)
        (if env.mainExistsLocally then "main" else "master") with
    | .error code => (code, [])
    | .ok (mainBranch, createNewBranch, isRemoteBranch) =>
      match dirtyStep env env.statusOut (jsTrim env.headOut) mainBranch
          createNewBranch with
      | .error code => (code, [])
      | .ok dirtyMuts =>
        match switchPull env env.statusOut (jsTrim env.headOut) mainBranch
            createNewBranch isRemoteBranch (jsTrim env.remoteShowOut) with
        | .error code => (code, dirtyMuts)
        | .ok pullMuts =>
          (0, dirtyMuts ++ pullMuts ++ createMutsOf createNewBranch ++
              deleteMutsOf mainBranch env.findEnv ++
              installMutsOf env.fsBefore env.fsAfter)

/-! ## Command scheduling inside `findBranchesWithDeletedRemotes`

The two revisions of `findBranchesWithDeletedRemotes` issue the same
three git commands but schedule them differently:

* the earlier revision (`src/git-main.mjs` lines 117-166) awaits
  `git remote prune origin`, then `git branch -vv`, then
  `git rev-parse --abbrev-ref HEAD` — strictly sequentially;
* the current revision (lines 563-610) launches all three at once with
  `Promise.all`, which imposes no completion order among them.

We model a run as a trace of start/end events.  Sequential awaiting
produces `seqTrace`; `Promise.all` admits every trace in which each
command merely starts before it ends. -/

/-- The git commands issued by `findBranchesWithDeletedRemotes`. -/
inductive GitCmd where
  /-- command `git remote prune <remote>` -/
  | remotePrune (remote : String)
  /-- command `git branch -vv` -/
  | branchVV
  /-- command `git rev-parse --abbrev-ref HEAD` -/
  | revParseHead
deriving DecidableEq

/-- Start/completion events of a command. -/
inductive Ev where
  | startCmd (c : GitCmd)
  | endCmd (c : GitCmd)
deriving DecidableEq

/-- The trace of a sequential `await` chain: each command completes
before the next one starts. -/
def seqTrace (cs : List GitCmd) : List Ev :=
  cs.flatMap fun c => [.startCmd c, .endCmd c]

/-- The commands of the earlier, sequential revision, in `await` order
(lines 120-130): prune, then the verbose listing, then HEAD. -/
def findBranchesV1Cmds : List GitCmd :=
  [.remotePrune "origin", .branchVV, .revParseHead]

/-- The trace of the earlier revision. -/
def findBranchesV1Trace : List Ev :=
  seqTrace findBranchesV1Cmds

/-- The commands launched concurrently by the current revision's
`Promise.all` (lines 568-572). -/
def findBranchesV2Launched (defaultRemote : String) : List GitCmd :=
  [.remotePrune defaultRemote, .branchVV, .revParseHead]

/-- All start/end events of a command batch. -/
def concEvents (cs : List GitCmd) : List Ev :=
  cs.flatMap fun c => [.startCmd c, .endCmd c]

/-- Index of the first occurrence of `e` in `t` (length of `t` if absent). -/
def evIdx (t : List Ev) (e : Ev) : Nat :=
  match t with
  | [] => 0
  | x :: xs => if x = e then 0 else evIdx xs e + 1

/-- Is `t` a completion schedule `Promise.all cs` admits?  Exactly the
arrangements of all start/end events in which every command starts
before it ends: `Promise.all` awaits all results but orders nothing. -/
def isConcSchedule (cs : List GitCmd) (t : List Ev) : Bool :=
  t.isPerm (concEvents cs) &&
    cs.all fun c => evIdx t (.startCmd c) < evIdx t (.endCmd c)

/-! ## Helper lemmas -/

/-- Everything `findLoop` collects survived its guard: it is nonempty and
differs from the current branch, the main branch, and the literal names
`master` and `main`. -/
theorem findLoop_mem {currentBranch mainBranch b : String} {lines : List String}
    (h : b ∈ findLoop currentBranch mainBranch lines) :
    b ≠ "" ∧ b ≠ currentBranch ∧ b ≠ mainBranch ∧ b ≠ "master" ∧ b ≠ "main" := by
  induction lines with
  | nil => simp [findLoop] at h
  | cons line rest ih =>
    rw [findLoop] at h
    rcases hp : vvParseLine line with _ | ⟨name, tracking⟩ <;> rw [hp] at h <;>
      dsimp only at h
    · exact ih h
    · by_cases hguard : name = "" ∨ name = currentBranch ∨ name = mainBranch ∨
          name = "master" ∨ name = "main"
      · rw [if_pos hguard] at h; exact ih h
      · rw [if_neg hguard] at h
        by_cases hgone : tracking ≠ "" ∧ jsIncludes tracking ": gone" = true
        · rw [if_pos hgone] at h
          rcases List.mem_cons.mp h with rfl | h
          · push_neg at hguard
            exact ⟨hguard.1, hguard.2.1, hguard.2.2.1, hguard.2.2.2.1, hguard.2.2.2.2⟩
          · exact ih h
        · rw [if_neg hgone] at h; exact ih h

/-! ## Claim theorems -/

/-- Claim C1 (status: code_bug).  The merged check of `canSafelyDeleteBranch`
is JS `String.includes` on the raw stdout of `git branch --merged`, i.e.
substring containment.  Concrete failing input: the merged listing
contains only `feature-2` and `main`, the branch `feature` is *not* in
the merged set and its tree (`treehash-A`) differs from main's
(`treehash-B`) — by the claim it has unique commits and must be reported
unsafe — yet the code reports it safe as "fully merged" because
`"  feature-2\n* main\n".includes("feature")` is true.  The branch would
then be force-deleted, losing its unique commits. -/
theorem canSafelyDeleteBranch_substring_merged_bug :
    canSafelyDeleteBranch "feature" "main"
        (.ok "  feature-2\n* main\n") (.ok "treehash-A\n") (.ok "treehash-B\n")
      = { safe := true, reason := "Branch is fully merged" } ∧
    jsTrim "treehash-A\n" ≠ jsTrim "treehash-B\n" ∧
    (jsSplitNl "  feature-2\n* main\n").all
        (fun l => l != "  feature" && l != "* feature" && l != "feature") = true := by
  decide

/-- Claim C9 (status: confirmed).  Whenever a git query performed by
`canSafelyDeleteBranch` fails — the merged listing, or (when the merged
listing succeeded without containing the branch) either tree lookup —
the `catch` yields `{safe: false}` with an `Error checking branch:`
reason, so an inspection failure can never classify a branch as safe. -/
theorem canSafelyDelete_query_failure_unsafe
    (branchName mainBranch : String)
    (mergedQ branchTreeQ mainTreeQ : Except String String)
    (h : isErr mergedQ = true ∨
         ((∃ s, mergedQ = .ok s ∧ jsIncludes s branchName = false) ∧
          (isErr branchTreeQ = true ∨ isErr mainTreeQ = true))) :
    (canSafelyDeleteBranch branchName mainBranch mergedQ branchTreeQ mainTreeQ).safe
        = false ∧
    ∃ e, (canSafelyDeleteBranch branchName mainBranch mergedQ branchTreeQ mainTreeQ).reason
        = "Error checking branch: " ++ e := by
  rcases mergedQ with e | s
  · exact ⟨rfl, e, rfl⟩
  · rcases h with h | ⟨⟨s', hs, hinc⟩, h2⟩
    · simp [isErr] at h
    · injection hs with hs; subst hs
      unfold canSafelyDeleteBranch
      dsimp only
      rw [if_neg (by simp [hinc])]
      rcases branchTreeQ with e | bt
      · exact ⟨rfl, e, rfl⟩
      · rcases mainTreeQ with e | mt
        · exact ⟨rfl, e, rfl⟩
        · rcases h2 with h2 | h2 <;> simp [isErr] at h2

/-- Witness for C9: a failing merged-listing query at a concrete input. -/
theorem canSafelyDelete_query_failure_unsafe_witness :
    (canSafelyDeleteBranch "feature" "main"
        (.error "fatal: not a git repository") (.ok "t\n") (.ok "t\n")).safe = false ∧
    ∃ e, (canSafelyDeleteBranch "feature" "main"
        (.error "fatal: not a git repository") (.ok "t\n") (.ok "t\n")).reason
        = "Error checking branch: " ++ e :=
  canSafelyDelete_query_failure_unsafe "feature" "main" _ _ _ (Or.inl rfl)

/-- Claim C10 (status: confirmed).  If any of the three queries inside
`findBranchesWithDeletedRemotes` fails — the prune, the verbose listing,
or the HEAD resolution — the surrounding `catch` logs the error and the
function returns the empty list, so no branch is deleted and the run
continues. -/
theorem findBranches_error_returns_empty (mainBranch : String) (env : FindEnv)
    (h : isErr env.pruneRes = true ∨ isErr env.branchVVRes = true ∨
         isErr env.headRes = true) :
    findBranchesWithDeletedRemotes mainBranch env = [] := by
  rcases env with ⟨p, v, hd⟩
  rcases p with e | p <;> rcases v with e' | v <;> rcases hd with e'' | hd <;>
    simp_all [findBranchesWithDeletedRemotes, isErr]

/-- Witness for C10: a failing prune at a concrete input whose verbose
listing does contain a gone branch. -/
theorem findBranches_error_returns_empty_witness :
    findBranchesWithDeletedRemotes "main"
      ⟨.error "fatal: could not read from remote",
       .ok "* main 1abc2 msg\n  feat 3abc4 [origin/feat: gone] old",
       .ok "main\n"⟩ = [] :=
  findBranches_error_returns_empty "main" _ (Or.inl rfl)

/-- Claim C6 (status: confirmed).  When more than 5 stale candidates exist,
`cleanupStaleBranches` takes the first 5 of the shuffle and then sorts
the selection in place, so exactly 5 branches are selected and the
displayed list is ordered by name.  The random shuffle
(`sort(() => 0.5 - Math.random())`) is modelled as an arbitrary
permutation `shuffled` of the stale list. -/
theorem stale_selection_cap_sorted (staleBranches shuffled : List String)
    (hperm : shuffled.Perm staleBranches) (h5 : 5 < staleBranches.length) :
    (selectStaleForDeletion staleBranches shuffled).length = 5 ∧
    List.Sorted (· ≤ ·) (selectStaleForDeletion staleBranches shuffled) := by
  unfold selectStaleForDeletion
  rw [if_pos (by omega)]
  have hlen : shuffled.length = staleBranches.length := hperm.length_eq
  constructor
  · rw [List.length_mergeSort, List.length_take]; omega
  · have hs := @List.sorted_mergeSort String
      (fun a b : String => decide (a ≤ b))
      (fun a b c hab hbc => by
        simp only [decide_eq_true_eq] at *
        exact le_trans hab hbc)
      (fun a b => by
        rcases le_total a b with h | h <;> simp [h])
      (shuffled.take 5)
    refine List.Pairwise.imp ?_ hs
    intro a b hab
    simpa using hab

/-- Witness for C6: six stale candidates, an explicit shuffle, exactly 5
selected, displayed sorted. -/
theorem stale_selection_cap_sorted_witness :
    (selectStaleForDeletion ["b", "a", "f", "c", "e", "d"]
        ["f", "e", "d", "c", "b", "a"]).length = 5 ∧
    List.Sorted (· ≤ ·) (selectStaleForDeletion ["b", "a", "f", "c", "e", "d"]
        ["f", "e", "d", "c", "b", "a"]) :=
  stale_selection_cap_sorted ["b", "a", "f", "c", "e", "d"]
    ["f", "e", "d", "c", "b", "a"] (by decide) (by decide)

/-- Claim C2 (status: corrected) — counterexample.  The staleness
classification of `cleanupStaleBranches` skips the literal names `main`
and `master` but never consults the current branch.  Repository state:
one local branch `feature`, checked out (its `git branch -vv` line is
marked `* `), tracking a deleted remote ref, last commit at epoch 0,
today 2026-10-11 UTC.  The stale set is exactly `[feature]` — the
currently checked-out branch. -/
theorem staleClassify_includes_current_branch :
    cleanupStaleClassify ["feature"]
        "* feature 1a2b3c [origin/feature: gone] wip" "origin"
        (fun _ => 0) 2026 9 11 = ["feature"] ∧
    jsStartsWith "* feature 1a2b3c [origin/feature: gone] wip" "* feature" = true := by
  decide

/-- Claim C2 (status: corrected) — amended claim.  The remote-gone deletion
list of `findBranchesWithDeletedRemotes` never contains the current
branch, the main branch, or a branch literally named `main`/`master`;
the staleness classification of `cleanupStaleBranches` never contains a
branch literally named `main`/`master` (but does not consult the current
branch — see the counterexample). -/
theorem protected_branches_never_stale :
    (∀ (mainBranch : String) (env : FindEnv) (b : String),
        b ∈ findBranchesWithDeletedRemotes mainBranch env →
        b ≠ "main" ∧ b ≠ "master" ∧ b ≠ mainBranch ∧
          ∀ headOut, env.headRes = .ok headOut → b ≠ jsTrim headOut) ∧
    (∀ (localBranches : List String) (vv remoteOut : String)
        (ts : String → Int) (y m0 d : Int) (b : String),
        b ∈ cleanupStaleClassify localBranches vv remoteOut ts y m0 d →
        b ≠ "main" ∧ b ≠ "master") := by
  constructor
  · intro mainBranch env b hb
    rcases env with ⟨p, v, hd⟩
    rcases p with e | p <;> rcases v with e' | v <;> rcases hd with e'' | hd <;>
      simp only [findBranchesWithDeletedRemotes] at hb <;>
      try exact absurd hb (List.not_mem_nil b)
    have h := findLoop_mem hb
    exact ⟨h.2.2.2.2, h.2.2.2.1, h.2.2.1, fun headOut ho => by
      injection ho with ho; subst ho; exact h.2.1⟩
  · intro localBranches vv remoteOut ts y m0 d b hb
    unfold cleanupStaleClassify at hb
    have h := (List.mem_filter.mp hb).2
    simp only [Bool.and_eq_true, Bool.not_eq_true', Bool.or_eq_false_iff,
      beq_eq_false_iff_ne, ne_eq] at h
    exact ⟨h.1.1.1, h.1.1.2⟩

/-- Witness for the C2 amended claim: a concrete run whose remote-gone
list is `[feat-x]`, necessarily distinct from the protected names. -/
theorem protected_branches_never_stale_witness :
    "feat-x" ≠ "main" ∧ "feat-x" ≠ "master" := by
  have h := protected_branches_never_stale.1 "main"
    ⟨.ok (), .ok "* main 1abc2 msg\n  feat-x 3abc4 [origin/feat-x: gone] old",
     .ok "main\n"⟩ "feat-x" (by decide)
  exact ⟨h.1, h.2.1⟩

/-- Claim C3 (status: corrected) — counterexample.  A never-pushed branch
can be classified stale.  Repository state: local branches `x` (no
tracking annotation at all — its verbose line parses with an empty
annotation) and `xy` (tracking the deleted remote ref `origin/x`), both
with old commits, today 2026-10-11 UTC.  The gone-regex built for `x`
(`^\s*(\*\s+)?x.*?\s*\[origin/x:\s*gone\].*`, multiline) matches *xy's*
line, so the stale set is `[x]` although `x` was never pushed. -/
theorem staleClassify_never_pushed_misclassified :
    cleanupStaleClassify ["x", "xy"]
        "  x 1abc2 initial\n  xy 3abc4 [origin/x: gone] wip" "origin"
        (fun _ => 0) 2026 9 11 = ["x"] ∧
    vvParseLine "  x 1abc2 initial" = some ("x", "") := by
  decide

/-- Claim C3 (status: corrected) — amended claim.  A local branch is
classified stale iff it is listed, is not literally `main`/`master`, its
last commit timestamp (in ms) is strictly below the threshold obtained by
subtracting one calendar month in UTC from the current date, and the
gone-regex built from its name and the remote matches *somewhere* in the
verbose listing — usually the branch's own `[remote/branch: gone]`
annotation, but possibly another branch's line (see the counterexample),
so the "never pushed ⇒ never stale" part of the original claim fails. -/
theorem staleClassify_iff (localBranches : List String)
    (vv remoteOut : String) (ts : String → Int) (y m0 d : Int) (b : String) :
    b ∈ cleanupStaleClassify localBranches vv remoteOut ts y m0 d ↔
      (b ∈ localBranches ∧ ¬(b = "main" ∨ b = "master") ∧
       ts b * 1000 < jsOneMonthAgoMs y m0 d ∧
       goneRegexTest b (rawRemoteName remoteOut) vv = true) := by
  unfold cleanupStaleClassify
  rw [List.mem_filter]
  simp only [Bool.and_eq_true, Bool.not_eq_true', Bool.or_eq_false_iff,
    beq_eq_false_iff_ne, ne_eq, decide_eq_true_eq, not_or]
  tauto

/-- Claim C8 (status: corrected) — counterexample.  In the current revision
`findBranchesWithDeletedRemotes` launches `git remote prune`,
`git branch -vv` and the HEAD query together via `Promise.all`, which
orders nothing: the schedule in which the verbose listing completes
before the prune does is admissible, so the listing need not reflect the
pruned state. -/
theorem prune_listing_race :
    isConcSchedule (findBranchesV2Launched "origin")
      [.startCmd (.remotePrune "origin"), .startCmd .branchVV,
       .startCmd .revParseHead, .endCmd .branchVV, .endCmd .revParseHead,
       .endCmd (.remotePrune "origin")] = true ∧
    evIdx [Ev.startCmd (.remotePrune "origin"), .startCmd .branchVV,
       .startCmd .revParseHead, .endCmd .branchVV, .endCmd .revParseHead,
       .endCmd (.remotePrune "origin")] (.endCmd .branchVV)
      < evIdx [Ev.startCmd (.remotePrune "origin"), .startCmd .branchVV,
       .startCmd .revParseHead, .endCmd .branchVV, .endCmd .revParseHead,
       .endCmd (.remotePrune "origin")] (.endCmd (.remotePrune "origin")) := by
  decide

/-- Claim C8 (status: corrected) — amended claim.  In the earlier revision
of `findBranchesWithDeletedRemotes` the three commands are awaited
strictly sequentially, so the prune completes before the verbose branch
listing starts; the current revision launches them concurrently and
gives no such guarantee. -/
theorem prune_before_listing_v1 :
    evIdx findBranchesV1Trace (.endCmd (.remotePrune "origin"))
      < evIdx findBranchesV1Trace (.startCmd .branchVV) ∧
    evIdx findBranchesV1Trace (.startCmd .branchVV)
      < evIdx findBranchesV1Trace (.startCmd .revParseHead) := by
  decide

/-- Helper: `resolveBranch` only ever exits with code 1. -/
theorem resolveBranch_error_code {env : MainEnv} {eb : Option String}
    {det : String} {c : Nat} (h : resolveBranch env eb det = .error c) : c = 1 := by
  unfold resolveBranch at h
  split at h
  · simp at h
  · split at h
    · simp at h
    · split at h
      · simp at h
      · split at h
        · simp at h
        · split at h
          · simp at h
          · injection h with h; omega

/-- Helper: `dirtyStep` only ever exits with code 1. -/
theorem dirtyStep_error_code {env : MainEnv} {status cur mb : String}
    {cnb : Option String} {c : Nat}
    (h : dirtyStep env status cur mb cnb = .error c) : c = 1 := by
  unfold dirtyStep at h
  split at h
  · simp at h
  · split at h
    · simp at h
    · split at h
      · split at h
        · simp at h
        · injection h with h; omega
      · injection h with h; omega

/-- Helper: `dirtyStep` succeeds with either no mutation or exactly the
stage-and-reset pair. -/
theorem dirtyStep_ok_shape {env : MainEnv} {status cur mb : String}
    {cnb : Option String} {l : List Mut}
    (h : dirtyStep env status cur mb cnb = .ok l) :
    l = [] ∨ l = [Mut.addAll, Mut.resetHard] := by
  unfold dirtyStep at h
  split at h
  · injection h with h; exact Or.inl h.symm
  · split at h
    · injection h with h; exact Or.inl h.symm
    · split at h
      · split at h
        · injection h with h; exact Or.inr h.symm
        · simp at h
      · simp at h

/-- Helper: `switchMutsOf` never installs, stages, or resets. -/
theorem switchMutsOf_shape (cur mb : String) (cnb : Option String)
    (irb : Bool) (remote : String) (m : Mut)
    (hm : m ∈ switchMutsOf cur mb cnb irb remote) :
    (∃ b r, m = Mut.checkoutTrack b r) ∨ (∃ b, m = Mut.checkout b) := by
  unfold switchMutsOf at hm
  split at hm
  · simp at hm
  · split at hm
    · simp at hm; exact Or.inl ⟨mb, remote, hm⟩
    · split at hm
      · simp at hm; exact Or.inr ⟨mb, hm⟩
      · simp at hm

/-- Helper: `switchPull` never performs an install. -/
theorem switchPull_ok_no_install {env : MainEnv} {status cur mb : String}
    {cnb : Option String} {irb : Bool} {remote : String} {l : List Mut}
    (h : switchPull env status cur mb cnb irb remote = .ok l) (pm : PM) :
    Mut.installDeps pm ∉ l := by
  have hsm : ∀ m ∈ switchMutsOf cur mb cnb irb remote, m ≠ Mut.installDeps pm := by
    intro m hm
    rcases switchMutsOf_shape cur mb cnb irb remote m hm with ⟨b, r, rfl⟩ | ⟨b, rfl⟩ <;>
      simp
  unfold switchPull at h
  split at h
  · injection h with h; subst h; simp
  · split at h
    · injection h with h; subst h
      intro hmem
      rcases List.mem_append.mp hmem with hmem | hmem
      · exact hsm _ hmem rfl
      · simp at hmem
    · split at h
      · split at h
        · injection h with h; subst h
          intro hmem; exact hsm _ hmem rfl
        · simp at h
      · injection h with h; subst h
        intro hmem
        rcases List.mem_append.mp hmem with hmem | hmem
        · exact hsm _ hmem rfl
        · simp at hmem

/-- Claim C7 (status: confirmed).  Any argument list with more than one
positional argument, or whose first argument starts with a dash, makes
the run exit with code 1 having executed no mutating command. -/
theorem usage_error_no_mutation (env : MainEnv)
    (h : 1 < env.args.length ∨
         ∃ a, env.args.head? = some a ∧ jsStartsWith a "-" = true) :
    mainRun env = (1, []) := by
  have hu : usageError env.args = true := by
    unfold usageError
    rcases h with h | ⟨a, ha, hs⟩
    · rw [if_pos h]
    · by_cases hl : 1 < env.args.length
      · rw [if_pos hl]
      · rw [if_neg hl, ha]; exact hs
  unfold mainRun
  rw [if_pos hu]

/-- Helper: `switchPull` only ever exits with code 1 (an unswallowed pull error
propagates to the top-level handler). -/
theorem switchPull_error_code {env : MainEnv} {status cur mb : String}
    {cnb : Option String} {irb : Bool} {remote : String} {c : Nat}
    (h : switchPull env status cur mb cnb irb remote = .error c) : c = 1 := by
  unfold switchPull at h
  split at h
  · simp at h
  · split at h
    · simp at h
    · split at h
      · split at h
        · simp at h
        · injection h with h; omega
      · simp at h

/-- Evaluation of `mainRun` past its early exits: once the arguments are
valid, a remote exists, the fetch succeeded and the branch resolution
returned, the run is the dirty gate, then the switch/pull, then the
create/delete/install tail. -/
theorem mainRun_eval (env : MainEnv) {mb : String} {cnb : Option String}
    {irb : Bool}
    (husage : usageError env.args = false)
    (hrem : jsTrim env.remoteShowOut ≠ "")
    (hfetch : env.fetchFails = false)
    (hres : resolveBranch env (if env.args.length = 1 then env.args.head? else none)
        (if env.mainExistsLocally then "main" else "master") = .ok (mb, cnb, irb)) :
    mainRun env =
      match dirtyStep env env.statusOut (jsTrim env.headOut) mb cnb with
      | .error code => (code, [])
      | .ok dirtyMuts =>
        match switchPull env env.statusOut (jsTrim env.headOut) mb cnb irb
            (jsTrim env.remoteShowOut) with
        | .error code => (code, dirtyMuts)
        | .ok pullMuts =>
          (0, dirtyMuts ++ pullMuts ++ createMutsOf cnb ++
              deleteMutsOf mb env.findEnv ++
              installMutsOf env.fsBefore env.fsAfter) := by
  unfold mainRun
  rw [if_neg (by simp [husage]), if_neg hrem, if_neg (by simp [hfetch]), hres]

/-- Witness for C7: a single flag-like argument `-x` at a concrete
environment. -/
theorem usage_error_no_mutation_witness :
    mainRun
      { args := ["-x"], remoteShowOut := "origin\n", fetchFails := false,
        mainExistsLocally := true, localBranchExists := fun _ => false,
        remoteBranchExists := fun _ => false, confirmCreate := false,
        headOut := "main\n", statusOut := "", confirmRevert := false,
        ffOnlySucceeds := true, pullFails := false, pullNoTracking := false,
        fsBefore := ⟨none, none, none⟩, fsAfter := ⟨none, none, none⟩,
        findEnv := ⟨.ok (), .ok "", .ok "main\n"⟩ } = (1, []) :=
  usage_error_no_mutation _ (Or.inr ⟨"-x", rfl, by decide⟩)

/-- Claim C4 (status: confirmed).  For a run with no branch argument (hence
no branch creation), a configured remote, a working fetch and a dirty
working tree: on the main branch with answer `y` the run stages all and
hard-resets (its first two mutations are exactly `git add --all` and
`git reset --hard HEAD`, leaving the tree clean) and, when the
fast-forward pull succeeds, ends with exit code 0; on the main branch
with answer `n` it exits 1 with no mutation, leaving the dirty files in
place; on any other branch it exits 1 with no mutation. -/
theorem dirty_tree_handling (env : MainEnv)
    (hargs : env.args = [])
    (hrem : jsTrim env.remoteShowOut ≠ "")
    (hfetch : env.fetchFails = false)
    (hdirty : env.statusOut ≠ "") :
    (jsTrim env.headOut = (if env.mainExistsLocally then "main" else "master") →
      env.confirmRevert = true →
      (mainRun env).2.take 2 = [Mut.addAll, Mut.resetHard] ∧
      (env.ffOnlySucceeds = true → (mainRun env).1 = 0)) ∧
    (jsTrim env.headOut = (if env.mainExistsLocally then "main" else "master") →
      env.confirmRevert = false → mainRun env = (1, [])) ∧
    (jsTrim env.headOut ≠ (if env.mainExistsLocally then "main" else "master") →
      mainRun env = (1, [])) := by
  have husage : usageError env.args = false := by rw [hargs]; rfl
  have hres : resolveBranch env
      (if env.args.length = 1 then env.args.head? else none)
      (if env.mainExistsLocally then "main" else "master")
      = .ok ((if env.mainExistsLocally then "main" else "master"), none, false) := by
    rw [hargs]; rfl
  have heval := mainRun_eval env husage hrem hfetch hres
  refine ⟨fun hcur hrev => ?_, fun hcur hrev => ?_, fun hcur => ?_⟩
  · have hd : dirtyStep env env.statusOut (jsTrim env.headOut)
        (if env.mainExistsLocally then "main" else "master") none
        = .ok [Mut.addAll, Mut.resetHard] := by
      unfold dirtyStep
      rw [if_neg hdirty, if_neg (by simp), if_pos hcur, if_pos hrev]
    rw [heval, hd]
    rcases hsp : switchPull env env.statusOut (jsTrim env.headOut)
        (if env.mainExistsLocally then "main" else "master") none false
        (jsTrim env.remoteShowOut) with code | pullMuts
    · refine ⟨by simp, fun hff => ?_⟩
      unfold switchPull at hsp
      rw [if_neg (by simp), if_pos hff] at hsp
      simp at hsp
    · exact ⟨by simp, fun hff => by simp⟩
  · have hd : dirtyStep env env.statusOut (jsTrim env.headOut)
        (if env.mainExistsLocally then "main" else "master") none
        = .error 1 := by
      unfold dirtyStep
      rw [if_neg hdirty, if_neg (by simp), if_pos hcur, if_neg (by simp [hrev])]
    rw [heval, hd]
  · have hd : dirtyStep env env.statusOut (jsTrim env.headOut)
        (if env.mainExistsLocally then "main" else "master") none
        = .error 1 := by
      unfold dirtyStep
      rw [if_neg hdirty, if_neg (by simp), if_neg hcur]
    rw [heval, hd]

/-- Witness for C4: a dirty `main` checkout with answer `y`, a clean
fast-forward and no gone branches: the run stages, resets, and exits 0. -/
theorem dirty_tree_handling_witness :
    (mainRun
      { args := [], remoteShowOut := "origin\n", fetchFails := false,
        mainExistsLocally := true, localBranchExists := fun _ => false,
        remoteBranchExists := fun _ => false, confirmCreate := false,
        headOut := "main\n", statusOut := "?? newfile.txt\n", confirmRevert := true,
        ffOnlySucceeds := true, pullFails := false, pullNoTracking := false,
        fsBefore := ⟨none, none, none⟩, fsAfter := ⟨none, none, none⟩,
        findEnv := ⟨.ok (), .ok "* main 1abc2 msg", .ok "main\n"⟩ }).2.take 2
      = [Mut.addAll, Mut.resetHard] ∧
    (mainRun
      { args := [], remoteShowOut := "origin\n", fetchFails := false,
        mainExistsLocally := true, localBranchExists := fun _ => false,
        remoteBranchExists := fun _ => false, confirmCreate := false,
        headOut := "main\n", statusOut := "?? newfile.txt\n", confirmRevert := true,
        ffOnlySucceeds := true, pullFails := false, pullNoTracking := false,
        fsBefore := ⟨none, none, none⟩, fsAfter := ⟨none, none, none⟩,
        findEnv := ⟨.ok (), .ok "* main 1abc2 msg", .ok "main\n"⟩ }).1 = 0 := by
  have h := (dirty_tree_handling
    { args := [], remoteShowOut := "origin\n", fetchFails := false,
      mainExistsLocally := true, localBranchExists := fun _ => false,
      remoteBranchExists := fun _ => false, confirmCreate := false,
      headOut := "main\n", statusOut := "?? newfile.txt\n", confirmRevert := true,
      ffOnlySucceeds := true, pullFails := false, pullNoTracking := false,
      fsBefore := ⟨none, none, none⟩, fsAfter := ⟨none, none, none⟩,
      findEnv := ⟨.ok (), .ok "* main 1abc2 msg", .ok "main\n"⟩ }
    rfl (by decide) rfl (by decide)).1 (by decide) rfl
  exact ⟨h.1, h.2 rfl⟩

/-- Claim C5 (status: confirmed).  In any completed run (exit code 0) in
which a package manager was detected before the switch/pull — so that
both lockfile snapshots are taken — the dependency reinstall is executed
iff the lockfile content read before the switch/pull differs, as a plain
string, from the one read after; byte-for-byte identical content never
triggers it, any difference does. -/
theorem reinstall_iff_lockfile_changed (env : MainEnv)
    (h0 : (mainRun env).1 = 0)
    (hpm : detectPackageManager env.fsBefore ≠ none) :
    (∃ pm, Mut.installDeps pm ∈ (mainRun env).2) ↔
      getLockfileContent env.fsBefore ≠ getLockfileContent env.fsAfter := by
  have h0' := h0
  unfold mainRun at h0'
  split at h0'
  next husage => simp at h0'
  next husage =>
  split at h0'
  next hrem => simp at h0'
  next hrem =>
  split at h0'
  next hfetch => simp at h0'
  next hfetch =>
  split at h0'
  next code heq =>
    have hc := resolveBranch_error_code heq
    simp at h0'; omega
  next mb cnb irb heq =>
  split at h0'
  next code heqd =>
    have hc := dirtyStep_error_code heqd
    simp at h0'; omega
  next dirtyMuts heqd =>
  split at h0'
  next code heqp =>
    have hc := switchPull_error_code heqp
    simp at h0'; omega
  next pullMuts heqp =>
  have heval := mainRun_eval env (by simpa using husage) hrem
    (by simpa using hfetch) heq
  rw [heqd, heqp] at heval
  rw [heval]
  rcases hpm' : detectPackageManager env.fsBefore with _ | pm0
  · exact absurd hpm' hpm
  have hinst : installMutsOf env.fsBefore env.fsAfter =
      (if getLockfileContent env.fsBefore ≠ getLockfileContent env.fsAfter then
        [Mut.installDeps pm0] else []) := by
    unfold installMutsOf
    rw [hpm']
    by_cases hdiff : getLockfileContent env.fsBefore ≠ getLockfileContent env.fsAfter
    · rw [if_pos hdiff]; simp [hdiff]
    · rw [if_neg hdiff]; simp [hdiff]
  have hnotdm : ∀ pm, Mut.installDeps pm ∉ dirtyMuts := by
    intro pm
    rcases dirtyStep_ok_shape heqd with rfl | rfl <;> simp
  have hnotpm : ∀ pm, Mut.installDeps pm ∉ pullMuts :=
    fun pm => switchPull_ok_no_install heqp pm
  have hnotcr : ∀ pm, Mut.installDeps pm ∉ createMutsOf cnb := by
    intro pm
    unfold createMutsOf
    rcases cnb with _ | b <;> simp
  have hnotdel : ∀ pm, Mut.installDeps pm ∉ deleteMutsOf mb env.findEnv := by
    intro pm
    unfold deleteMutsOf
    split
    · intro hmem
      rcases List.mem_map.mp hmem with ⟨b, _, hb⟩
      exact Mut.noConfusion hb
    · simp
  constructor
  · rintro ⟨pm, hmem⟩
    simp only [List.append_assoc, List.mem_append] at hmem
    rcases hmem with hmem | hmem | hmem | hmem | hmem
    · exact absurd hmem (hnotdm pm)
    · exact absurd hmem (hnotpm pm)
    · exact absurd hmem (hnotcr pm)
    · exact absurd hmem (hnotdel pm)
    · rw [hinst] at hmem
      by_cases hdiff : getLockfileContent env.fsBefore ≠ getLockfileContent env.fsAfter
      · exact hdiff
      · rw [if_neg hdiff] at hmem
        simp at hmem
  · intro hdiff
    refine ⟨pm0, ?_⟩
    simp only [List.append_assoc, List.mem_append]
    refine Or.inr (Or.inr (Or.inr (Or.inr ?_)))
    rw [hinst, if_pos hdiff]
    simp

/-- Witness for C5: a completed run on a clean `main` whose
`package-lock.json` changed across the pull — the npm install runs. -/
theorem reinstall_iff_lockfile_changed_witness :
    (∃ pm, Mut.installDeps pm ∈ (mainRun
      { args := [], remoteShowOut := "origin\n", fetchFails := false,
        mainExistsLocally := true, localBranchExists := fun _ => false,
        remoteBranchExists := fun _ => false, confirmCreate := false,
        headOut := "main\n", statusOut := "", confirmRevert := false,
        ffOnlySucceeds := true, pullFails := false, pullNoTracking := false,
        fsBefore := ⟨none, none, some "lock-v1"⟩,
        fsAfter := ⟨none, none, some "lock-v2"⟩,
        findEnv := ⟨.ok (), .ok "* main 1abc2 msg", .ok "main\n"⟩ }).2) ↔
      getLockfileContent (⟨none, none, some "lock-v1"⟩ : LockFS)
        ≠ getLockfileContent (⟨none, none, some "lock-v2"⟩ : LockFS) :=
  reinstall_iff_lockfile_changed
    { args := [], remoteShowOut := "origin\n", fetchFails := false,
      mainExistsLocally := true, localBranchExists := fun _ => false,
      remoteBranchExists := fun _ => false, confirmCreate := false,
      headOut := "main\n", statusOut := "", confirmRevert := false,
      ffOnlySucceeds := true, pullFails := false, pullNoTracking := false,
      fsBefore := ⟨none, none, some "lock-v1"⟩,
      fsAfter := ⟨none, none, some "lock-v2"⟩,
      findEnv := ⟨.ok (), .ok "* main 1abc2 msg", .ok "main\n"⟩ }
    (by decide) (by decide)

end GitMain
